import Mathlib

/-!
Verification of the bemol BEM solver core.

Shallow embedding of the parts of bemol relevant to the corrections
dispatch (bem.py, Corrections), the coupled/uncoupled solver wiring
(ning.py), the secondary correction models (secondary.py), and the sweep
drivers (bem.py, BaseBEM.steady / BaseBEM.dynamic).  Real-valued float
code is idealised over the real numbers.
-/

namespace Bemol

/-! ## Correction categories and variants (secondary.py class structure)

The module secondary.py declares five top-level classes, one per
correction category; inspect.getmembers enumerates them alphabetically:
DynamicInflow, HubTipLoss, SkewAngle, TurbulentWakeState, YawModel.
Each category has a Dummy variant plus zero or more physical variants;
a variant's qualified name is of the form Category.Variant, so the
qualname-containment test of Corrections.__init__ is exactly membership
of the variant in the category's family. -/

/-- Correction category, one per top-level class of secondary.py. -/
inductive Category where
  | dynamicInflow
  | hubTipLoss
  | skewAngle
  | turbulentWakeState
  | yawModel
deriving DecidableEq, Repr

/-- Concrete correction class (an inner class of secondary.py). -/
inductive Variant where
  | hubTipLossDummy
  | prandtl
  | skewAngleDummy
  | burton
  | dynamicInflowDummy
  | knudsen
  | yawModelDummy
  | pittAndPeters
  | turbulentWakeStateDummy
  | buhl
deriving DecidableEq, Repr

/-- Category a variant belongs to: the outer class of its qualified name. -/
def family : Variant → Category
  | Variant.hubTipLossDummy => Category.hubTipLoss
  | Variant.prandtl => Category.hubTipLoss
  | Variant.skewAngleDummy => Category.skewAngle
  | Variant.burton => Category.skewAngle
  | Variant.dynamicInflowDummy => Category.dynamicInflow
  | Variant.knudsen => Category.dynamicInflow
  | Variant.yawModelDummy => Category.yawModel
  | Variant.pittAndPeters => Category.yawModel
  | Variant.turbulentWakeStateDummy => Category.turbulentWakeState
  | Variant.buhl => Category.turbulentWakeState

/-- Dummy variant of a category (obj.Dummy in Corrections.__init__). -/
def Category.dummyVariant : Category → Variant
  | Category.dynamicInflow => Variant.dynamicInflowDummy
  | Category.hubTipLoss => Variant.hubTipLossDummy
  | Category.skewAngle => Variant.skewAngleDummy
  | Category.turbulentWakeState => Variant.turbulentWakeStateDummy
  | Category.yawModel => Variant.yawModelDummy

/-- Python object of a correction class: its class plus an object
identity, so that instance identity (Python `is`) is equality here.
Fresh identities are drawn from a counter threaded through the model. -/
structure Instance where
  variant : Variant
  objId : ℕ
deriving DecidableEq, Repr

/-- Item of a corrections selection: either a class (instantiated with
default parameters by Corrections.__init__) or a pre-built instance. -/
inductive SelItem where
  | ofType (v : Variant)
  | ofInst (inst : Instance)
deriving DecidableEq, Repr

/-- Declared class of a selection item. -/
def SelItem.variant : SelItem → Variant
  | SelItem.ofType v => v
  | SelItem.ofInst i => i.variant

/-- Corrections selection, as accepted by Corrections.__init__: either a
dict keyed by category name (unknown keys are never consulted, so the
mapping is modelled on the five category keys) or an unordered
collection of items. -/
inductive Selection where
  | dict (m : Category → Option SelItem)
  | coll (items : List SelItem)

/-- Instantiation step `corr = corr() if isinstance(corr, type) else corr`:
a class is instantiated to a fresh object, an instance is kept as is. -/
def instantiate : SelItem → ℕ → Instance × ℕ
  | SelItem.ofType v, n => (⟨v, n⟩, n + 1)
  | SelItem.ofInst i, n => (i, n)

/-- Scan of the collection branch of Corrections.__init__: walk the
items in order, instantiate each, and stop at the first one whose class
belongs to the scanned category's family. -/
def scanColl (c : Category) : List SelItem → ℕ → Option Instance × ℕ
  | [], n => (none, n)
  | it :: rest, n =>
    if family (instantiate it n).1.variant = c then
      (some (instantiate it n).1, (instantiate it n).2)
    else
      scanColl c rest (instantiate it n).2

/-- Resolution of one category by Corrections.__init__: dict branch
looks the category up and falls back to a fresh Dummy; collection branch
first installs a fresh Dummy and then scans the items for a match. -/
def resolveCat (sel : Selection) (c : Category) (n : ℕ) : Instance × ℕ :=
  match sel with
  | Selection.dict m =>
    match m c with
    | some it => instantiate it n
    | none => (⟨c.dummyVariant, n⟩, n + 1)
  | Selection.coll items =>
    match scanColl c items (n + 1) with
    | (some inst, k) => (inst, k)
    | (none, k) => (⟨c.dummyVariant, n⟩, k)

/-- Categories in the order inspect.getmembers(secondary) yields them
(alphabetical by class name), which is also the attribute insertion
order of the Corrections bundle. -/
def categoryOrder : List Category :=
  [Category.dynamicInflow, Category.hubTipLoss, Category.skewAngle,
   Category.turbulentWakeState, Category.yawModel]

/-- Loop of Corrections.__init__ over the member classes: resolves each
category in turn, threading the fresh-identity counter, and records the
bundle's attributes in insertion order. -/
def correctionsLoop (sel : Selection) : List Category → ℕ → List (Category × Instance) × ℕ
  | [], n => ([], n)
  | c :: cs, n =>
    ((c, (resolveCat sel c n).1) ::
        (correctionsLoop sel cs (resolveCat sel c n).2).1,
      (correctionsLoop sel cs (resolveCat sel c n).2).2)

/-- Corrections.__init__ : build the bundle from a selection, starting
from fresh-identity counter n. -/
def correctionsInit (sel : Selection) (n : ℕ) : List (Category × Instance) × ℕ :=
  correctionsLoop sel categoryOrder n

/-- Attribute read on the bundle (getattr by category name). -/
def attrLookup : List (Category × Instance) → Category → Option Instance
  | [], _ => none
  | p :: rest, c => if p.1 = c then some p.2 else attrLookup rest c

/-- First item of a collection whose declared class belongs to the
category's family.  This is the resolution rule as the spec words it. -/
def firstFamilyMatch (c : Category) : List SelItem → Option SelItem
  | [] => none
  | it :: rest => if family it.variant = c then some it else firstFamilyMatch c rest

lemma instantiate_variant (it : SelItem) (n : ℕ) : (instantiate it n).1.variant = it.variant := by
  cases it <;> rfl

lemma family_dummyVariant (c : Category) : family c.dummyVariant = c := by
  cases c <;> rfl

lemma correctionsLoop_keys (sel : Selection) :
    ∀ (cs : List Category) (n : ℕ), ((correctionsLoop sel cs n).1).map Prod.fst = cs := by
  intro cs
  induction cs with
  | nil => intro n; rfl
  | cons c rest ih =>
    intro n
    simp [correctionsLoop, ih]

lemma attrLookup_correctionsLoop (sel : Selection) :
    ∀ (cs : List Category) (n : ℕ) (c : Category), c ∈ cs →
      ∃ m, attrLookup (correctionsLoop sel cs n).1 c = some (resolveCat sel c m).1 := by
  intro cs
  induction cs with
  | nil => intro n c hc; cases hc
  | cons c' rest ih =>
    intro n c hc
    by_cases h : c' = c
    · subst h
      exact ⟨n, by simp [correctionsLoop, attrLookup]⟩
    · have hmem : c ∈ rest := by
        cases hc with
        | head => exact absurd rfl h
        | tail _ h' => exact h'
      obtain ⟨m, hm⟩ := ih (resolveCat sel c' n).2 c hmem
      exact ⟨m, by simpa [correctionsLoop, attrLookup, h] using hm⟩

lemma scanColl_none (c : Category) :
    ∀ (items : List SelItem) (n : ℕ), firstFamilyMatch c items = none →
      ∃ k, scanColl c items n = (none, k) := by
  intro items
  induction items with
  | nil => intro n _; exact ⟨n, rfl⟩
  | cons it rest ih =>
    intro n hfm
    by_cases h : family it.variant = c
    · simp [firstFamilyMatch, h] at hfm
    · have hfm' : firstFamilyMatch c rest = none := by
        simpa [firstFamilyMatch, h] using hfm
      obtain ⟨k, hk⟩ := ih (instantiate it n).2 hfm'
      exact ⟨k, by simp [scanColl, instantiate_variant, h, hk]⟩

lemma scanColl_ofInst (c : Category) (i : Instance) :
    ∀ (items : List SelItem) (n : ℕ),
      firstFamilyMatch c items = some (SelItem.ofInst i) →
      ∃ k, scanColl c items n = (some i, k) := by
  intro items
  induction items with
  | nil => intro n h; simp [firstFamilyMatch] at h
  | cons it rest ih =>
    intro n hfm
    by_cases h : family it.variant = c
    · have : it = SelItem.ofInst i := by simpa [firstFamilyMatch, h] using hfm
      subst this
      simp only [SelItem.variant] at h
      exact ⟨n, by simp [scanColl, instantiate, h]⟩
    · have hfm' : firstFamilyMatch c rest = some (SelItem.ofInst i) := by
        simpa [firstFamilyMatch, h] using hfm
      obtain ⟨k, hk⟩ := ih (instantiate it n).2 hfm'
      exact ⟨k, by simp [scanColl, instantiate_variant, h, hk]⟩

lemma scanColl_ofType (c : Category) (v : Variant) :
    ∀ (items : List SelItem) (n : ℕ),
      firstFamilyMatch c items = some (SelItem.ofType v) →
      ∃ j k, scanColl c items n = (some ⟨v, j⟩, k) := by
  intro items
  induction items with
  | nil => intro n h; simp [firstFamilyMatch] at h
  | cons it rest ih =>
    intro n hfm
    by_cases h : family it.variant = c
    · have : it = SelItem.ofType v := by simpa [firstFamilyMatch, h] using hfm
      subst this
      simp only [SelItem.variant] at h
      exact ⟨n, n + 1, by simp [scanColl, instantiate, h]⟩
    · have hfm' : firstFamilyMatch c rest = some (SelItem.ofType v) := by
        simpa [firstFamilyMatch, h] using hfm
      obtain ⟨j, k, hk⟩ := ih (instantiate it n).2 hfm'
      exact ⟨j, k, by simp [scanColl, instantiate_variant, h, hk]⟩

/-- C1: for every selection passed to the Corrections constructor
(empty, partial mapping keyed by category name, partial collection,
mixed types and instances), the resulting bundle exposes exactly one
instance for each of the five categories, in the fixed member order; a
category absent from a mapping is bound to a (fresh) instance of that
category's Dummy class; and in collection form each category is bound
to the first item of the collection whose declared class belongs to
that category's family, a fresh Dummy being installed when none
matches. -/
theorem corrections_complete (sel : Selection) (n : ℕ) :
    ((correctionsInit sel n).1.map Prod.fst = categoryOrder)
    ∧ (∀ (m : Category → Option SelItem) (c : Category),
        sel = Selection.dict m → m c = none →
        ∃ k, attrLookup (correctionsInit sel n).1 c = some ⟨c.dummyVariant, k⟩)
    ∧ (∀ (items : List SelItem) (c : Category), sel = Selection.coll items →
        ((firstFamilyMatch c items = none →
            ∃ k, attrLookup (correctionsInit sel n).1 c = some ⟨c.dummyVariant, k⟩)
         ∧ (∀ i, firstFamilyMatch c items = some (SelItem.ofInst i) →
            attrLookup (correctionsInit sel n).1 c = some i)
         ∧ (∀ v, firstFamilyMatch c items = some (SelItem.ofType v) →
            ∃ k, attrLookup (correctionsInit sel n).1 c = some ⟨v, k⟩))) := by
  have hmem : ∀ c : Category, c ∈ categoryOrder := by
    intro c; cases c <;> simp [categoryOrder]
  refine ⟨correctionsLoop_keys sel categoryOrder n, ?_, ?_⟩
  · intro m c hsel hnone
    obtain ⟨m', hm'⟩ := attrLookup_correctionsLoop sel categoryOrder n c (hmem c)
    subst hsel
    refine ⟨m', ?_⟩
    rw [correctionsInit] at *
    rw [hm']
    simp [resolveCat, hnone]
  · intro items c hsel
    subst hsel
    obtain ⟨m', hm'⟩ :=
      attrLookup_correctionsLoop (Selection.coll items) categoryOrder n c (hmem c)
    refine ⟨?_, ?_, ?_⟩
    · intro hfm
      obtain ⟨k, hk⟩ := scanColl_none c items (m' + 1) hfm
      exact ⟨m', by rw [correctionsInit] at *; rw [hm']; simp [resolveCat, hk]⟩
    · intro i hfm
      obtain ⟨k, hk⟩ := scanColl_ofInst c i items (m' + 1) hfm
      rw [correctionsInit] at *
      rw [hm']
      simp [resolveCat, hk]
    · intro v hfm
      obtain ⟨j, k, hk⟩ := scanColl_ofType c v items (m' + 1) hfm
      exact ⟨j, by rw [correctionsInit] at *; rw [hm']; simp [resolveCat, hk]⟩

/-- Witness for C1 at a concrete mixed collection selection: a Prandtl
class and a pre-built Burton instance; hubTipLoss binds a fresh Prandtl
instance, skewAngle binds the given Burton instance itself, and
dynamicInflow, having no match, binds a fresh DynamicInflow Dummy. -/
theorem corrections_complete_witness :
    (Selection.coll [SelItem.ofType Variant.prandtl, SelItem.ofInst ⟨Variant.burton, 42⟩]
      = Selection.coll [SelItem.ofType Variant.prandtl, SelItem.ofInst ⟨Variant.burton, 42⟩])
    ∧ (firstFamilyMatch Category.hubTipLoss
        [SelItem.ofType Variant.prandtl, SelItem.ofInst ⟨Variant.burton, 42⟩]
        = some (SelItem.ofType Variant.prandtl))
    ∧ (∃ k, attrLookup
        (correctionsInit
          (Selection.coll [SelItem.ofType Variant.prandtl, SelItem.ofInst ⟨Variant.burton, 42⟩]) 0).1
        Category.hubTipLoss = some ⟨Variant.prandtl, k⟩)
    ∧ (attrLookup
        (correctionsInit
          (Selection.coll [SelItem.ofType Variant.prandtl, SelItem.ofInst ⟨Variant.burton, 42⟩]) 0).1
        Category.skewAngle = some ⟨Variant.burton, 42⟩)
    ∧ (∃ k, attrLookup
        (correctionsInit
          (Selection.coll [SelItem.ofType Variant.prandtl, SelItem.ofInst ⟨Variant.burton, 42⟩]) 0).1
        Category.dynamicInflow = some ⟨Category.dynamicInflow.dummyVariant, k⟩) := by
  refine ⟨rfl, by decide, ?_, ?_, ?_⟩
  · exact ((corrections_complete
      (Selection.coll [SelItem.ofType Variant.prandtl, SelItem.ofInst ⟨Variant.burton, 42⟩]) 0).2.2
      _ Category.hubTipLoss rfl).2.2 Variant.prandtl (by decide)
  · exact ((corrections_complete
      (Selection.coll [SelItem.ofType Variant.prandtl, SelItem.ofInst ⟨Variant.burton, 42⟩]) 0).2.2
      _ Category.skewAngle rfl).2.1 ⟨Variant.burton, 42⟩ (by decide)
  · exact ((corrections_complete
      (Selection.coll [SelItem.ofType Variant.prandtl, SelItem.ofInst ⟨Variant.burton, 42⟩]) 0).2.2
      _ Category.dynamicInflow rfl).1 (by decide)

/-! ## NingCoupled constructor wiring (ning.py, NingCoupled.__init__)

BaseBEM.__init__ builds the solver's own Corrections bundle from the
corrections argument (an omitted argument becomes the empty dict).
NingCoupled.__init__ then constructs its internal NingUncoupled solver:
when corrections were passed positionally (third positional argument)
the argument is replaced by list(self.corrections), and when passed by
keyword it is replaced by the Corrections bundle itself; a Corrections
object is iterated by Corrections.__iter__, which yields the five held
instances in attribute insertion order, so both replacements hand the
inner solver the five instances of the outer bundle as a collection.
When corrections were omitted the inner solver builds a fresh default
bundle of its own. -/

/-- Well-formed selection: a mapping binds each category key to an item
of that category's family, as the Corrections docstring requires (the
key must be the name of the correction as defined in secondary.py); a
collection has no key constraint. -/
def Selection.wellFormed : Selection → Prop
  | Selection.dict m => ∀ c it, m c = some it → family it.variant = c
  | Selection.coll _ => True

/-- Iteration of a Corrections bundle (Corrections.__iter__): its held
instances, in attribute insertion order, as selection items. -/
def bundleItems (attrs : List (Category × Instance)) : List SelItem :=
  attrs.map (fun p => SelItem.ofInst p.2)

/-- How the corrections argument reaches a solver constructor: omitted,
passed as the third positional argument, or passed by keyword. -/
inductive CorrArg where
  | omitted
  | positional (sel : Selection)
  | keyword (sel : Selection)

/-- Selection the Corrections constructor effectively receives
(BaseBEM.__init__ replaces an omitted argument by the empty dict). -/
def CorrArg.effectiveSel : CorrArg → Selection
  | CorrArg.omitted => Selection.dict (fun _ => none)
  | CorrArg.positional sel => sel
  | CorrArg.keyword sel => sel

/-- NingCoupled.__init__ : build the coupled solver's own bundle, then
the bundle of its internal NingUncoupled solver, threading the
fresh-identity counter.  Returns (own bundle, inner bundle). -/
def ningCoupledBundles (arg : CorrArg) (n : ℕ) :
    List (Category × Instance) × List (Category × Instance) :=
  match arg with
  | CorrArg.omitted =>
    ((correctionsInit (CorrArg.omitted.effectiveSel) n).1,
     (correctionsInit (CorrArg.omitted.effectiveSel)
        (correctionsInit (CorrArg.omitted.effectiveSel) n).2).1)
  | CorrArg.positional sel =>
    ((correctionsInit sel n).1,
     (correctionsInit (Selection.coll (bundleItems (correctionsInit sel n).1))
        (correctionsInit sel n).2).1)
  | CorrArg.keyword sel =>
    ((correctionsInit sel n).1,
     (correctionsInit (Selection.coll (bundleItems (correctionsInit sel n).1))
        (correctionsInit sel n).2).1)

lemma scanColl_family (c : Category) :
    ∀ (items : List SelItem) (n : ℕ) (inst : Instance) (k : ℕ),
      scanColl c items n = (some inst, k) → family inst.variant = c := by
  intro items
  induction items with
  | nil => intro n inst k h; simp [scanColl] at h
  | cons it rest ih =>
    intro n inst k h
    by_cases hc : family (instantiate it n).1.variant = c
    · rw [scanColl, if_pos hc] at h
      obtain ⟨h1, _⟩ := Prod.mk.injEq .. ▸ h
      cases h
      exact hc
    · rw [scanColl, if_neg hc] at h
      exact ih (instantiate it n).2 inst k h

lemma resolveCat_family (sel : Selection) (hwf : sel.wellFormed) (c : Category) (n : ℕ) :
    family (resolveCat sel c n).1.variant = c := by
  cases sel with
  | dict m =>
    cases hmc : m c with
    | none => simp [resolveCat, hmc, family_dummyVariant]
    | some it =>
      have := hwf c it hmc
      simp [resolveCat, hmc, instantiate_variant, this]
  | coll items =>
    cases hsc : scanColl c items (n + 1) with
    | mk opt k =>
      cases opt with
      | none => simp [resolveCat, hsc, family_dummyVariant]
      | some inst =>
        have := scanColl_family c items (n + 1) inst k hsc
        simp [resolveCat, hsc, this]

lemma correctionsLoop_family (sel : Selection) (hwf : sel.wellFormed) :
    ∀ (cs : List Category) (n : ℕ) (p : Category × Instance),
      p ∈ (correctionsLoop sel cs n).1 → family p.2.variant = p.1 := by
  intro cs
  induction cs with
  | nil => intro n p hp; simp [correctionsLoop] at hp
  | cons c rest ih =>
    intro n p hp
    rw [correctionsLoop] at hp
    rcases List.mem_cons.mp hp with h | h
    · subst h
      exact resolveCat_family sel hwf c n
    · exact ih (resolveCat sel c n).2 p h

lemma firstFamilyMatch_bundleItems :
    ∀ (attrs : List (Category × Instance)),
      (∀ p ∈ attrs, family p.2.variant = p.1) → ∀ c : Category,
      firstFamilyMatch c (bundleItems attrs) = (attrLookup attrs c).map SelItem.ofInst := by
  intro attrs
  induction attrs with
  | nil => intro _ c; rfl
  | cons p rest ih =>
    intro hfam c
    have hp : family p.2.variant = p.1 := hfam p (List.mem_cons_self p rest)
    have hrest : ∀ q ∈ rest, family q.2.variant = q.1 :=
      fun q hq => hfam q (List.mem_cons_of_mem p hq)
    by_cases hc : p.1 = c
    · simp [bundleItems, firstFamilyMatch, attrLookup, SelItem.variant, hp, hc]
    · simp only [bundleItems, List.map_cons, firstFamilyMatch, SelItem.variant, hp,
        attrLookup, hc, if_neg hc]
      simpa [bundleItems] using ih hrest c

/-- C2: for every NingCoupled solver constructed with a corrections
selection (passed positionally or by keyword, the selection mapping
each category key to a correction of that category's family), the
DynamicInflow instance held by the internally constructed NingUncoupled
solver is the identical object as the DynamicInflow instance of the
coupled solver's own bundle. -/
theorem coupled_shares_dynamicInflow (arg : CorrArg) (n : ℕ)
    (hgiven : arg ≠ CorrArg.omitted) (hwf : arg.effectiveSel.wellFormed) :
    attrLookup (ningCoupledBundles arg n).2 Category.dynamicInflow
      = attrLookup (ningCoupledBundles arg n).1 Category.dynamicInflow := by
  have hmem : Category.dynamicInflow ∈ categoryOrder := by simp [categoryOrder]
  have main : ∀ sel : Selection, sel.wellFormed → ∀ n₀ n₁ : ℕ,
      attrLookup (correctionsInit
        (Selection.coll (bundleItems (correctionsInit sel n₀).1)) n₁).1 Category.dynamicInflow
      = attrLookup (correctionsInit sel n₀).1 Category.dynamicInflow := by
    intro sel hsel n₀ n₁
    obtain ⟨m₀, hm₀⟩ : ∃ m, attrLookup (correctionsInit sel n₀).1 Category.dynamicInflow
        = some (resolveCat sel Category.dynamicInflow m).1 :=
      attrLookup_correctionsLoop sel categoryOrder n₀ Category.dynamicInflow hmem
    obtain ⟨m₁, hm₁⟩ : ∃ m, attrLookup
        (correctionsInit (Selection.coll (bundleItems (correctionsInit sel n₀).1)) n₁).1
        Category.dynamicInflow
        = some (resolveCat (Selection.coll (bundleItems (correctionsInit sel n₀).1))
            Category.dynamicInflow m).1 :=
      attrLookup_correctionsLoop (Selection.coll (bundleItems (correctionsInit sel n₀).1))
        categoryOrder n₁ Category.dynamicInflow hmem
    have hfam : ∀ p ∈ (correctionsInit sel n₀).1, family p.2.variant = p.1 :=
      fun p hp => correctionsLoop_family sel hsel categoryOrder n₀ p hp
    have hfm : firstFamilyMatch Category.dynamicInflow
        (bundleItems (correctionsInit sel n₀).1)
        = (attrLookup (correctionsInit sel n₀).1 Category.dynamicInflow).map SelItem.ofInst :=
      firstFamilyMatch_bundleItems (correctionsInit sel n₀).1 hfam Category.dynamicInflow
    have hfm' : firstFamilyMatch Category.dynamicInflow
        (bundleItems (correctionsInit sel n₀).1)
        = some (SelItem.ofInst (resolveCat sel Category.dynamicInflow m₀).1) := by
      rw [hfm, hm₀]; rfl
    obtain ⟨k, hk⟩ := scanColl_ofInst Category.dynamicInflow
      (resolveCat sel Category.dynamicInflow m₀).1
      (bundleItems (correctionsInit sel n₀).1) (m₁ + 1) hfm'
    rw [hm₁, hm₀]
    simp [resolveCat, hk]
  cases arg with
  | omitted => exact absurd rfl hgiven
  | positional sel => exact main sel hwf n (correctionsInit sel n).2
  | keyword sel => exact main sel hwf n (correctionsInit sel n).2

/-- Witness for C2: a positional collection selection holding one
pre-built Knudsen dynamic-inflow instance; both bundles expose it. -/
theorem coupled_shares_dynamicInflow_witness :
    (CorrArg.positional (Selection.coll [SelItem.ofInst ⟨Variant.knudsen, 7⟩]) ≠ CorrArg.omitted)
    ∧ Selection.wellFormed
        (CorrArg.positional (Selection.coll [SelItem.ofInst ⟨Variant.knudsen, 7⟩])).effectiveSel
    ∧ attrLookup
        (ningCoupledBundles
          (CorrArg.positional (Selection.coll [SelItem.ofInst ⟨Variant.knudsen, 7⟩])) 0).2
        Category.dynamicInflow
      = attrLookup
        (ningCoupledBundles
          (CorrArg.positional (Selection.coll [SelItem.ofInst ⟨Variant.knudsen, 7⟩])) 0).1
        Category.dynamicInflow := by
  refine ⟨fun h => CorrArg.noConfusion h, trivial, ?_⟩
  exact coupled_shares_dynamicInflow
    (CorrArg.positional (Selection.coll [SelItem.ofInst ⟨Variant.knudsen, 7⟩])) 0
    (fun h => CorrArg.noConfusion h) trivial

/-! ## Yaw model call arity (ning.py step 4 and secondary.py YawModel)

NingUncoupled.solve invokes the configured yaw model with six
positional arguments: axial induction, wake skew angle, azimuth,
radius, hub radius and tip radius.  YawModel.Dummy declares
(axialInduction, *args, **kwargs) and absorbs any argument count;
YawModel.PittAndPeters declares exactly five positional parameters
(axialInduction, wakeSkewAngle, azimuthAngle, radius, tipRadius), so
Python raises a TypeError before its body runs when six are passed. -/

/-- Configured yaw model class of the corrections bundle. -/
inductive YawModelVariant where
  | dummy
  | pittAndPeters
deriving DecidableEq, Repr

/-- Python call semantics of the yaw model against a positional
argument list: Dummy returns its first argument whatever their number;
PittAndPeters evaluates its formula only when exactly its five declared
parameters are supplied and otherwise raises a TypeError. -/
noncomputable def yawModelInvoke (v : YawModelVariant) (factor : ℝ)
    (args : List ℝ) : Except String ℝ :=
  match v with
  | YawModelVariant.dummy =>
    match args with
    | a :: _ => Except.ok a
    | [] => Except.error "TypeError"
  | YawModelVariant.pittAndPeters =>
    match args with
    | [axialInduction, wakeSkewAngle, azimuthAngle, radius, tipRadius] =>
      Except.ok (axialInduction *
        (1 + factor * Real.tan (wakeSkewAngle / 2) * radius / tipRadius
          * Real.sin azimuthAngle))
    | _ => Except.error "TypeError"

/-- Positional argument list built at the call site in
NingUncoupled.solve (ning.py, step 4 of the per-section solve). -/
def solveYawModelArgs (a wakeSkewAngle azimuth radius hubRadius tipRadius : ℝ) : List ℝ :=
  [a, wakeSkewAngle, azimuth, radius, hubRadius, tipRadius]

/-- C5 is a code bug: the six-argument yaw model call of
NingUncoupled.solve succeeds for Dummy (variadic, overwriting the axial
induction with its first argument) but raises a TypeError for
PittAndPeters, whose signature declares only five positional
parameters, although the sample scripts drive the uncoupled solver with
PittAndPeters through exactly this call. -/
theorem yawModel_call_arity (factor a wakeSkewAngle azimuth radius hubRadius tipRadius : ℝ) :
    yawModelInvoke YawModelVariant.dummy factor
      (solveYawModelArgs a wakeSkewAngle azimuth radius hubRadius tipRadius) = Except.ok a
    ∧ yawModelInvoke YawModelVariant.pittAndPeters factor
      (solveYawModelArgs a wakeSkewAngle azimuth radius hubRadius tipRadius)
      = Except.error "TypeError" :=
  ⟨rfl, rfl⟩

/-! ## Dynamic sweep broadcast (bem.py, BaseBEM.dynamic)

The driver receives azimuth, pitch, wind and omega each as a scalar or
a sequence; a scalar is wrapped into a one-element list.  The step
count is the maximum length among inputs of length above one (one if
there is none); inputs of length exactly one are repeated to that
count, inputs of any other length are left untouched, and the timestep
loop zips the four lists, stopping at the shortest.

The loop body, however, passes the original un-indexed azimuth
argument, not the per-step value, to tools.calculateVelocity.  With an
azimuth sequence of two or more elements np.cos and np.sin turn the
axial and tangential velocities into multi-element arrays, and the
region test of NingUncoupled.residuals then asks for the truth value of
a multi-element array, which numpy refuses with a ValueError: the very
first per-section solve aborts and zero timesteps complete.  A scalar
azimuth, or a one-element sequence (size-one arrays are truthy), keeps
the loop running. -/

/-- Step count chosen by BaseBEM.dynamic: maximum length among the
inputs longer than one element, defaulting to one. -/
def numberSteps (ls : List (List ℕ)) : ℕ :=
  ls.foldl (fun acc l => if 1 < l.length then max l.length acc else acc) 1

/-- Singleton broadcast of BaseBEM.dynamic: a one-element list is
repeated to the step count, any other list is kept as is. -/
def broadcastInput (n : ℕ) (l : List ℕ) : List ℕ :=
  if l.length = 1 then (List.replicate n l).flatten else l

/-- Zip of the four per-step input streams, as the timestep loop of
BaseBEM.dynamic consumes them: iteration stops at the shortest list. -/
def zip4 : List ℕ → List ℕ → List ℕ → List ℕ → List (ℕ × ℕ × ℕ × ℕ)
  | a :: as, b :: bs, c :: cs, d :: ds => (a, b, c, d) :: zip4 as bs cs ds
  | _, _, _, _ => []

/-- Scalar-or-sequence input of BaseBEM.dynamic; the distinction
matters because the loop body passes the original azimuth argument,
not the per-step value, to the velocity kinematics. -/
inductive PyInput where
  | scalar (x : ℕ)
  | seq (l : List ℕ)
deriving DecidableEq, Repr

/-- Wrapping performed by BaseBEM.dynamic: a scalar (a value without a
len) becomes a one-element list, a sequence is kept. -/
def toWrapped : PyInput → List ℕ
  | PyInput.scalar x => [x]
  | PyInput.seq l => l

/-- Wrapped inputs of the driver in the order of its inputs dict. -/
def dynamicInputs (azimuth pitch wind omega : PyInput) : List (List ℕ) :=
  [toWrapped azimuth, toWrapped pitch, toWrapped wind, toWrapped omega]

/-- Zipped per-step tuples of BaseBEM.dynamic: the four inputs after
singleton broadcast, consumed in lockstep until the shortest ends. -/
def dynamicZip (azimuth pitch wind omega : PyInput) : List (ℕ × ℕ × ℕ × ℕ) :=
  zip4
    (broadcastInput (numberSteps (dynamicInputs azimuth pitch wind omega)) (toWrapped azimuth))
    (broadcastInput (numberSteps (dynamicInputs azimuth pitch wind omega)) (toWrapped pitch))
    (broadcastInput (numberSteps (dynamicInputs azimuth pitch wind omega)) (toWrapped wind))
    (broadcastInput (numberSteps (dynamicInputs azimuth pitch wind omega)) (toWrapped omega))

/-- Failure condition of the loop body: calculateVelocity receives the
un-indexed azimuth argument, so an azimuth sequence of two or more
elements makes the velocities multi-element arrays and the residual's
region test raises ValueError on their ambiguous truth value. -/
def azimuthVelocityFails : PyInput → Bool
  | PyInput.scalar _ => false
  | PyInput.seq l => decide (2 ≤ l.length)

/-- Exception aborting the dynamic sweep. -/
inductive DynError where
  | ambiguousArrayTruth
deriving DecidableEq, Repr

/-- Outcome of the timestep loop of BaseBEM.dynamic for one section:
if at least one step runs and the azimuth argument is a multi-element
sequence, the first step's solve raises and nothing completes;
otherwise every zipped tuple is solved. -/
def dynamicRun (azimuth pitch wind omega : PyInput) :
    Except DynError (List (ℕ × ℕ × ℕ × ℕ)) :=
  if azimuthVelocityFails azimuth = true ∧ dynamicZip azimuth pitch wind omega ≠ [] then
    Except.error DynError.ambiguousArrayTruth
  else
    Except.ok (dynamicZip azimuth pitch wind omega)

lemma zip4_length : ∀ a b c d : List ℕ,
    (zip4 a b c d).length = min (min a.length b.length) (min c.length d.length) := by
  intro a
  induction a with
  | nil => intro b c d; cases b <;> cases c <;> cases d <;> simp [zip4]
  | cons x as ih =>
    intro b c d
    cases b with
    | nil => cases c <;> cases d <;> simp [zip4]
    | cons y bs =>
      cases c with
      | nil => cases d <;> simp [zip4]
      | cons z cs =>
        cases d with
        | nil => simp [zip4]
        | cons w ds =>
          simp [zip4, ih bs cs ds]
          omega

lemma broadcastInput_length (n : ℕ) (l : List ℕ) :
    (broadcastInput n l).length = if l.length = 1 then n else l.length := by
  by_cases h : l.length = 1
  · simp [broadcastInput, h, List.length_flatten, List.map_replicate]
  · simp [broadcastInput, h]

lemma numberSteps_ge_init : ∀ (ls : List (List ℕ)) (acc : ℕ),
    acc ≤ ls.foldl (fun acc l => if 1 < l.length then max l.length acc else acc) acc := by
  intro ls
  induction ls with
  | nil => intro acc; exact le_refl acc
  | cons l rest ih =>
    intro acc
    rw [List.foldl_cons]
    refine le_trans ?_ (ih _)
    by_cases h : 1 < l.length
    · rw [if_pos h]; exact le_max_right _ _
    · rw [if_neg h]

lemma numberSteps_pos (ls : List (List ℕ)) : 1 ≤ numberSteps ls :=
  numberSteps_ge_init ls 1

lemma broadcastInput_ne_nil (n : ℕ) (hn : 1 ≤ n) (l : List ℕ) (hl : l ≠ []) :
    1 ≤ (broadcastInput n l).length := by
  rw [broadcastInput_length]
  split_ifs
  · exact hn
  · exact List.length_pos.mpr hl

lemma dynamicZip_ne_nil (azimuth pitch wind omega : PyInput)
    (hne : ∀ p ∈ [azimuth, pitch, wind, omega], toWrapped p ≠ []) :
    dynamicZip azimuth pitch wind omega ≠ [] := by
  have hn : 1 ≤ numberSteps (dynamicInputs azimuth pitch wind omega) :=
    numberSteps_pos _
  have hpos : 1 ≤ (dynamicZip azimuth pitch wind omega).length := by
    rw [dynamicZip, zip4_length]
    refine le_min (le_min ?_ ?_) (le_min ?_ ?_) <;>
      exact broadcastInput_ne_nil _ hn _ (hne _ (by simp))
  intro h
  rw [h] at hpos
  simp at hpos

/-- C6 counterexample: with azimuth scalar, pitch of length two and
wind of length three, the step count is three and yet only two zipped
timesteps are solved; the length-two pitch is not broadcast to the
longest.  Moreover an azimuth supplied as a sequence of length two
makes the driver abort with a ValueError before any timestep completes,
instead of evaluating any steps at all. -/
theorem dynamic_broadcast_counterexample :
    numberSteps (dynamicInputs (PyInput.scalar 0) (PyInput.seq [0, 1])
      (PyInput.seq [0, 1, 2]) (PyInput.scalar 0)) = 3
    ∧ dynamicRun (PyInput.scalar 0) (PyInput.seq [0, 1])
        (PyInput.seq [0, 1, 2]) (PyInput.scalar 0)
      = Except.ok [(0, 0, 0, 0), (0, 1, 1, 0)]
    ∧ ([(0, 0, 0, 0), (0, 1, 1, 0)] : List (ℕ × ℕ × ℕ × ℕ)).length = 2
    ∧ dynamicRun (PyInput.seq [0, 1]) (PyInput.scalar 0)
        (PyInput.scalar 0) (PyInput.scalar 0)
      = Except.error DynError.ambiguousArrayTruth := by
  refine ⟨rfl, rfl, rfl, rfl⟩

/-- C6 amended: only inputs of length one (scalars included, wrapped
to one-element lists) are broadcast to the longest length.  An azimuth
supplied as a sequence of two or more elements aborts the driver at
the first per-section solve with a ValueError (the un-indexed azimuth
reaches calculateVelocity, making the velocities multi-element arrays
whose truth value the residual's region test cannot take), completing
zero timesteps.  Otherwise the timestep loop zips the post-broadcast
inputs and evaluates a number of timesteps equal to the shortest
post-broadcast length, which equals the step count exactly when every
input has length one or that count. -/
theorem dynamic_steps_behavior (azimuth pitch wind omega : PyInput)
    (hne : ∀ p ∈ [azimuth, pitch, wind, omega], toWrapped p ≠ []) :
    (∀ l, azimuth = PyInput.seq l → 2 ≤ l.length →
      dynamicRun azimuth pitch wind omega = Except.error DynError.ambiguousArrayTruth)
    ∧ (azimuthVelocityFails azimuth = false →
      dynamicRun azimuth pitch wind omega
          = Except.ok (dynamicZip azimuth pitch wind omega)
      ∧ (dynamicZip azimuth pitch wind omega).length
          = min
            (min (broadcastInput (numberSteps (dynamicInputs azimuth pitch wind omega))
                    (toWrapped azimuth)).length
                 (broadcastInput (numberSteps (dynamicInputs azimuth pitch wind omega))
                    (toWrapped pitch)).length)
            (min (broadcastInput (numberSteps (dynamicInputs azimuth pitch wind omega))
                    (toWrapped wind)).length
                 (broadcastInput (numberSteps (dynamicInputs azimuth pitch wind omega))
                    (toWrapped omega)).length)
      ∧ ((∀ p ∈ [azimuth, pitch, wind, omega], (toWrapped p).length = 1
            ∨ (toWrapped p).length = numberSteps (dynamicInputs azimuth pitch wind omega)) →
          (dynamicZip azimuth pitch wind omega).length
            = numberSteps (dynamicInputs azimuth pitch wind omega))) := by
  constructor
  · intro l hal h2
    have hfail : azimuthVelocityFails azimuth = true := by
      subst hal
      simpa [azimuthVelocityFails] using h2
    rw [dynamicRun, if_pos ⟨hfail, dynamicZip_ne_nil azimuth pitch wind omega hne⟩]
  · intro hfalse
    have hcond : ¬(azimuthVelocityFails azimuth = true
        ∧ dynamicZip azimuth pitch wind omega ≠ []) := by
      rintro ⟨h, _⟩
      rw [hfalse] at h
      cases h
    refine ⟨by rw [dynamicRun, if_neg hcond], ?_, ?_⟩
    · rw [dynamicZip, zip4_length]
    · intro huni
      have hbl : ∀ p ∈ [azimuth, pitch, wind, omega],
          (broadcastInput (numberSteps (dynamicInputs azimuth pitch wind omega))
            (toWrapped p)).length
          = numberSteps (dynamicInputs azimuth pitch wind omega) := by
        intro p hp
        rw [broadcastInput_length]
        rcases huni p hp with h1 | h1
        · rw [if_pos h1]
        · split_ifs with h2
          · rfl
          · exact h1
      rw [dynamicZip, zip4_length, hbl azimuth (by simp), hbl pitch (by simp),
        hbl wind (by simp), hbl omega (by simp)]
      simp

/-- Witness for the amended C6: a length-two azimuth aborts with the
ValueError; a scalar azimuth with pitch of length two and wind of
length three completes exactly two timesteps; a scalar azimuth with
pitch of length three completes exactly three. -/
theorem dynamic_steps_behavior_witness :
    (∀ p ∈ [PyInput.seq [0, 1], PyInput.scalar 0, PyInput.scalar 0, PyInput.scalar 0],
      toWrapped p ≠ [])
    ∧ dynamicRun (PyInput.seq [0, 1]) (PyInput.scalar 0) (PyInput.scalar 0) (PyInput.scalar 0)
        = Except.error DynError.ambiguousArrayTruth
    ∧ azimuthVelocityFails (PyInput.scalar 0) = false
    ∧ dynamicRun (PyInput.scalar 0) (PyInput.seq [0, 1])
        (PyInput.seq [0, 1, 2]) (PyInput.scalar 0)
      = Except.ok (dynamicZip (PyInput.scalar 0) (PyInput.seq [0, 1])
          (PyInput.seq [0, 1, 2]) (PyInput.scalar 0))
    ∧ (dynamicZip (PyInput.scalar 0) (PyInput.seq [0, 1])
        (PyInput.seq [0, 1, 2]) (PyInput.scalar 0)).length = 2
    ∧ (dynamicZip (PyInput.scalar 0) (PyInput.seq [0, 1, 2])
        (PyInput.scalar 0) (PyInput.scalar 0)).length
      = numberSteps (dynamicInputs (PyInput.scalar 0) (PyInput.seq [0, 1, 2])
          (PyInput.scalar 0) (PyInput.scalar 0)) := by
  refine ⟨by decide, ?_, by decide, ?_, ?_, ?_⟩
  · exact (dynamic_steps_behavior (PyInput.seq [0, 1]) (PyInput.scalar 0)
      (PyInput.scalar 0) (PyInput.scalar 0) (by decide)).1 [0, 1] rfl (by decide)
  · exact ((dynamic_steps_behavior (PyInput.scalar 0) (PyInput.seq [0, 1])
      (PyInput.seq [0, 1, 2]) (PyInput.scalar 0) (by decide)).2 (by decide)).1
  · exact (((dynamic_steps_behavior (PyInput.scalar 0) (PyInput.seq [0, 1])
      (PyInput.seq [0, 1, 2]) (PyInput.scalar 0) (by decide)).2 (by decide)).2.1).trans
      (by decide)
  · exact (((dynamic_steps_behavior (PyInput.scalar 0) (PyInput.seq [0, 1, 2])
      (PyInput.scalar 0) (PyInput.scalar 0) (by decide)).2 (by decide)).2.2) (by decide)

/-! ## Thrust coefficient (bem.py, BaseBEM.CT and BaseBEM.CtMomentum)

Float arithmetic is idealised over the reals.  CtMomentum receives the
tangential induction but never uses it; its empirical band delegates to
the active TurbulentWakeState correction, modelled as a function
parameter.  The propeller-brake branch prints a diagnostic, modelled as
a Boolean flag alongside the returned value, so the branch is non-fatal
and its value is an ordinary real number. -/

/-- BaseBEM.CT : base thrust coefficient formulation. -/
noncomputable def CT (a F chi : ℝ) : ℝ :=
  4 * a * F * Real.sqrt (1 - a * (2 * Real.cos chi - a))

/-- TurbulentWakeState.Dummy.__call__ : the empty high-induction model
calls the base thrust coefficient. -/
noncomputable def twsDummy (axialInduction lossFactor skewAngle : ℝ) : ℝ :=
  CT axialInduction lossFactor skewAngle

/-- BaseBEM.CtMomentum : three-branch thrust coefficient with brake
region; the second component records the propeller-brake diagnostic. -/
noncomputable def CtMomentum (tws : ℝ → ℝ → ℝ → ℝ) (a aprime F chi : ℝ) : ℝ × Bool :=
  if a ≤ 0.4 then (CT a F chi, false)
  else if 1 < a then (4 * a * F * (a - 1) * Real.cos chi, true)
  else (tws a F chi, false)

/-- C3: CtMomentum selects exactly three branches on the axial
induction: at most 0.4 it returns the closed-form CT; above 1 it
returns 4aF(a-1)cos(chi), an ordinary finite real value, emitting the
non-fatal propeller-brake diagnostic; strictly between 0.4 and 1
(inclusive) it returns the active TurbulentWakeState correction applied
to (a, F, chi).  The tangential induction is never consulted. -/
theorem ctMomentum_branches (tws : ℝ → ℝ → ℝ → ℝ) (a aprime F chi : ℝ) :
    (a ≤ 0.4 → CtMomentum tws a aprime F chi = (CT a F chi, false))
    ∧ (1 < a → CtMomentum tws a aprime F chi = (4 * a * F * (a - 1) * Real.cos chi, true))
    ∧ (0.4 < a → a ≤ 1 → CtMomentum tws a aprime F chi = (tws a F chi, false)) := by
  refine ⟨fun h => ?_, fun h => ?_, fun h h' => ?_⟩
  · rw [CtMomentum, if_pos h]
  · rw [CtMomentum, if_neg (by linarith), if_pos h]
  · rw [CtMomentum, if_neg (by linarith), if_neg (by linarith)]

/-- Witness for C3: one concrete input in each of the three branches,
with the Dummy turbulent-wake-state model active. -/
theorem ctMomentum_branches_witness :
    ((0.2 : ℝ) ≤ 0.4) ∧ ((1 : ℝ) < 2) ∧ ((0.4 : ℝ) < 0.7) ∧ ((0.7 : ℝ) ≤ 1)
    ∧ CtMomentum twsDummy 0.2 0 1 0 = (CT 0.2 1 0, false)
    ∧ CtMomentum twsDummy 2 0 1 0 = (4 * 2 * 1 * (2 - 1) * Real.cos 0, true)
    ∧ CtMomentum twsDummy 0.7 0 1 0 = (twsDummy 0.7 1 0, false) :=
  ⟨by norm_num, by norm_num, by norm_num, by norm_num,
   (ctMomentum_branches twsDummy 0.2 0 1 0).1 (by norm_num),
   (ctMomentum_branches twsDummy 2 0 1 0).2.1 (by norm_num),
   (ctMomentum_branches twsDummy 0.7 0 1 0).2.2 (by norm_num) (by norm_num)⟩

/-- C4: for axial induction in the momentum range, unit loss factor and
zero skew, the base thrust coefficient equals the momentum-theory value
4a(1-a) exactly, the radicand being the perfect square (1-a)^2 with
1 - a nonnegative on the range. -/
theorem ct_momentum_identity (a : ℝ) (h₀ : 0 ≤ a) (h₁ : a ≤ 0.4) :
    CT a 1 0 = 4 * a * (1 - a) := by
  have hrad : 1 - a * (2 * Real.cos 0 - a) = (1 - a) ^ 2 := by
    rw [Real.cos_zero]; ring
  rw [CT, hrad, Real.sqrt_sq (by linarith)]
  ring

/-- Witness for C4 at axial induction one quarter. -/
theorem ct_momentum_identity_witness :
    ((0 : ℝ) ≤ 1 / 4) ∧ ((1 / 4 : ℝ) ≤ 0.4) ∧ CT (1 / 4) 1 0 = 4 * (1 / 4) * (1 - 1 / 4) :=
  ⟨by norm_num, by norm_num, ct_momentum_identity (1 / 4) (by norm_num) (by norm_num)⟩

/-! ## Knudsen dynamic inflow (secondary.py, DynamicInflow.Knudsen)

The correction keeps a first-order-lag filter value alphaDynamic as
mutable state; a call returns the filtered induction and the updated
state, or raises on a zero timestep before touching the state.  The
velocity entering the time constant is floored at one. -/

/-- Error taxonomy entry for an invalid input (a Python ValueError). -/
inductive BemError where
  | invalidTimestep
deriving DecidableEq, Repr

/-- Mutable state and parameters of a DynamicInflow.Knudsen object. -/
structure KnudsenState where
  alpha0 : ℝ
  alphaDynamic : ℝ
  tauScale : ℝ

/-- DynamicInflow.Knudsen.__call__ : raise on a zero timestep, else
low-pass-filter the axial induction and store the new filter value. -/
noncomputable def knudsenCall (s : KnudsenState) (axialInduction Ux radius tStep : ℝ) :
    Except BemError ℝ × KnudsenState :=
  if tStep = 0 then (Except.error BemError.invalidTimestep, s)
  else
    (Except.ok (tStep * (1 / (s.tauScale * radius / max 1 Ux))
        * (axialInduction - s.alphaDynamic) + s.alphaDynamic),
     { s with alphaDynamic := tStep * (1 / (s.tauScale * radius / max 1 Ux))
        * (axialInduction - s.alphaDynamic) + s.alphaDynamic })

/-- C7: calling the Knudsen dynamic inflow correction with a zero
timestep raises the invalid-input error, whatever the other arguments,
and leaves the internal filter state unchanged. -/
theorem knudsen_zero_timestep (s : KnudsenState) (axialInduction Ux radius : ℝ) :
    knudsenCall s axialInduction Ux radius 0
      = (Except.error BemError.invalidTimestep, s) := by
  rw [knudsenCall, if_pos rfl]

/-- C10: the filter gain uses max(1, Ux), so two calls identical except
for axial velocities both at most one return the same filtered
induction and the same new state; the model does not distinguish axial
velocities at or below one. -/
theorem knudsen_low_velocity_clamp (s : KnudsenState)
    (axialInduction Ux₁ Ux₂ radius tStep : ℝ) (h₁ : Ux₁ ≤ 1) (h₂ : Ux₂ ≤ 1) :
    knudsenCall s axialInduction Ux₁ radius tStep
      = knudsenCall s axialInduction Ux₂ radius tStep := by
  rw [knudsenCall, knudsenCall, max_eq_left h₁, max_eq_left h₂]

/-- Witness for C10: axial velocities zero and minus two both behave as
one metre per second. -/
theorem knudsen_low_velocity_clamp_witness :
    ((0 : ℝ) ≤ 1) ∧ ((-2 : ℝ) ≤ 1)
    ∧ knudsenCall ⟨0.3, 0.3, 3⟩ 1 0 2 (1 / 10)
      = knudsenCall ⟨0.3, 0.3, 3⟩ 1 (-2) 2 (1 / 10) :=
  ⟨by norm_num, by norm_num,
   knudsen_low_velocity_clamp ⟨0.3, 0.3, 3⟩ 1 0 (-2) 2 (1 / 10) (by norm_num) (by norm_num)⟩

/-! ## Prandtl hub/tip loss (secondary.py, HubTipLoss.Prandtl)

The correction computes (2/pi) arccos(exp(-fTip)) times
(2/pi) arccos(exp(-fRoot)) and floors the product at its configured
epsilon.  The exponential is always positive, so each arccos stays
strictly below pi/2 and each factor strictly below one. -/

/-- HubTipLoss.Prandtl.__call__ with configured floor epsilon. -/
noncomputable def prandtlCall (epsilon radius nBlades hubRadius tipRadius inflowAngle : ℝ) : ℝ :=
  max
    ((2 / Real.pi * Real.arccos (Real.exp
        (-(nBlades / 2 * ((tipRadius - radius) / (radius * |Real.sin inflowAngle|))))))
      * (2 / Real.pi * Real.arccos (Real.exp
        (-(nBlades / 2 * ((radius - hubRadius) / (hubRadius * |Real.sin inflowAngle|)))))))
    epsilon

lemma arccos_exp_factor_nonneg (x : ℝ) : 0 ≤ 2 / Real.pi * Real.arccos (Real.exp x) :=
  mul_nonneg (by positivity) (Real.arccos_nonneg _)

lemma arccos_exp_factor_lt_one (x : ℝ) : 2 / Real.pi * Real.arccos (Real.exp x) < 1 := by
  have hπ : (0 : ℝ) < Real.pi := Real.pi_pos
  have harc : Real.arccos (Real.exp x) < Real.pi / 2 :=
    Real.arccos_lt_pi_div_two.mpr (Real.exp_pos x)
  have h2 : (0 : ℝ) < 2 / Real.pi := by positivity
  have := mul_lt_mul_of_pos_left harc h2
  calc 2 / Real.pi * Real.arccos (Real.exp x)
      < 2 / Real.pi * (Real.pi / 2) := this
    _ = 1 := by field_simp

/-- C9: for every input with hubRadius at most radius at most
tipRadius, at least one blade and a nonvanishing sine of the inflow
angle, the Prandtl loss factor lies in the half-open interval from its
configured floor epsilon (default 1e-12, assumed positive and below
one) up to but excluding one; in particular it is nonzero, so the
divisions by 4F in the kappa and kappaPrime of the uncoupled residual
are never divisions by zero. -/
theorem prandtl_loss_bounds (epsilon radius nBlades hubRadius tipRadius inflowAngle : ℝ)
    (hε₀ : 0 < epsilon) (hε₁ : epsilon < 1)
    (hhub : hubRadius ≤ radius) (htip : radius ≤ tipRadius)
    (hnb : 1 ≤ nBlades) (hsin : Real.sin inflowAngle ≠ 0) :
    epsilon ≤ prandtlCall epsilon radius nBlades hubRadius tipRadius inflowAngle
    ∧ prandtlCall epsilon radius nBlades hubRadius tipRadius inflowAngle < 1
    ∧ prandtlCall epsilon radius nBlades hubRadius tipRadius inflowAngle ≠ 0 := by
  have hfloor : epsilon ≤ prandtlCall epsilon radius nBlades hubRadius tipRadius inflowAngle :=
    le_max_right _ _
  have hprod : (2 / Real.pi * Real.arccos (Real.exp
        (-(nBlades / 2 * ((tipRadius - radius) / (radius * |Real.sin inflowAngle|))))))
      * (2 / Real.pi * Real.arccos (Real.exp
        (-(nBlades / 2 * ((radius - hubRadius) / (hubRadius * |Real.sin inflowAngle|)))))) < 1 := by
    have h1 := arccos_exp_factor_nonneg
      (-(nBlades / 2 * ((tipRadius - radius) / (radius * |Real.sin inflowAngle|))))
    have h2 := arccos_exp_factor_lt_one
      (-(nBlades / 2 * ((tipRadius - radius) / (radius * |Real.sin inflowAngle|))))
    have h3 := arccos_exp_factor_lt_one
      (-(nBlades / 2 * ((radius - hubRadius) / (hubRadius * |Real.sin inflowAngle|))))
    calc (2 / Real.pi * Real.arccos (Real.exp
          (-(nBlades / 2 * ((tipRadius - radius) / (radius * |Real.sin inflowAngle|))))))
        * (2 / Real.pi * Real.arccos (Real.exp
          (-(nBlades / 2 * ((radius - hubRadius) / (hubRadius * |Real.sin inflowAngle|))))))
        ≤ (2 / Real.pi * Real.arccos (Real.exp
          (-(nBlades / 2 * ((tipRadius - radius) / (radius * |Real.sin inflowAngle|)))))) * 1 :=
          mul_le_mul_of_nonneg_left h3.le h1
      _ < 1 := by rw [mul_one]; exact h2
  have hlt : prandtlCall epsilon radius nBlades hubRadius tipRadius inflowAngle < 1 :=
    max_lt hprod hε₁
  exact ⟨hfloor, hlt, (lt_of_lt_of_le hε₀ hfloor).ne'⟩

/-- Witness for C9 at the default floor 1e-12, a three-bladed rotor
with hub radius one, tip radius three, radius two and inflow angle
pi/2. -/
theorem prandtl_loss_bounds_witness :
    ((0 : ℝ) < 1e-12) ∧ ((1e-12 : ℝ) < 1) ∧ ((1 : ℝ) ≤ 2) ∧ ((2 : ℝ) ≤ 3)
    ∧ ((1 : ℝ) ≤ 3) ∧ Real.sin (Real.pi / 2) ≠ 0
    ∧ ((1e-12 : ℝ) ≤ prandtlCall 1e-12 2 3 1 3 (Real.pi / 2)
        ∧ prandtlCall 1e-12 2 3 1 3 (Real.pi / 2) < 1
        ∧ prandtlCall 1e-12 2 3 1 3 (Real.pi / 2) ≠ 0) := by
  have hsin : Real.sin (Real.pi / 2) ≠ 0 := by
    rw [Real.sin_pi_div_two]; exact one_ne_zero
  exact ⟨by norm_num, by norm_num, by norm_num, by norm_num, by norm_num, hsin,
    prandtl_loss_bounds 1e-12 2 3 1 3 (Real.pi / 2)
      (by norm_num) (by norm_num) (by norm_num) (by norm_num) (by norm_num) hsin⟩

/-! ## Root bracket search and sweep propagation (ning.py solve,
bem.py steady)

NingUncoupled.solve probes the residual at epsilon and pi/2, then at
-epsilon and -pi/4; if neither probe pair changes sign it hands the
interval from pi/2 to pi - epsilon to brentq without its own sign
check, and brentq raises its generic ValueError when the endpoint
residuals have the same strict sign.  Nothing in solve or in
BaseBEM.steady catches the exception, so it aborts the whole sweep; the
error scipy raises names neither the section index nor the attempted
interval. -/

/-- Error escaping a failed per-section solve, with the report fields
the claim asks about: scipy's ValueError carries a fixed message and
neither a section index nor an interval. -/
structure SolverError where
  message : String
  sectionIndex : Option ℕ
  interval : Option (ℝ × ℝ)

/-- Exception raised by scipy.optimize.brentq on equal-sign endpoints. -/
def scipyNoSignChange : SolverError :=
  { message := "ValueError: f a and f b must have different signs",
    sectionIndex := none, interval := none }

/-- Bracket selection of NingUncoupled.solve: the two guarded probe
pairs, then the unguarded third interval on which brentq itself checks
the endpoint signs. -/
noncomputable def chooseBracket (epsilon : ℝ) (resid : ℝ → ℝ) : Except SolverError (ℝ × ℝ) :=
  if resid epsilon * resid (Real.pi / 2) < 0 then
    Except.ok (epsilon, Real.pi / 2)
  else if resid (-epsilon) * resid (-(Real.pi / 4)) < 0 then
    Except.ok (-(Real.pi / 4), -epsilon)
  else if 0 < resid (Real.pi / 2) * resid (Real.pi - epsilon) then
    Except.error scipyNoSignChange
  else
    Except.ok (Real.pi / 2, Real.pi - epsilon)

/-- Section loop of BaseBEM.steady: solve each section in order; an
exception escaping a per-section solve aborts the loop and propagates,
discarding the partially filled arrays. -/
noncomputable def sweepSections (solveSection : ℕ → Except SolverError (ℝ × ℝ)) :
    List ℕ → Except SolverError (List (ℝ × ℝ))
  | [] => Except.ok []
  | i :: rest =>
    match solveSection i with
    | Except.error e => Except.error e
    | Except.ok v =>
      match sweepSections solveSection rest with
      | Except.error e => Except.error e
      | Except.ok vs => Except.ok (v :: vs)

lemma chooseBracket_error_eq (epsilon : ℝ) (resid : ℝ → ℝ) (e : SolverError)
    (h : chooseBracket epsilon resid = Except.error e) : e = scipyNoSignChange := by
  rw [chooseBracket] at h
  split_ifs at h <;> cases h <;> rfl

lemma sweepSections_error_of_mem (epsilon : ℝ) (resid : ℕ → ℝ → ℝ) (i : ℕ) :
    ∀ sections : List ℕ, i ∈ sections →
    (∀ e, chooseBracket epsilon (resid i) ≠ Except.ok e) →
    sweepSections (fun j => chooseBracket epsilon (resid j)) sections
      = Except.error scipyNoSignChange := by
  intro sections
  induction sections with
  | nil => intro h; cases h
  | cons j rest ih =>
    intro hmem hbad
    rw [sweepSections]
    cases hj : chooseBracket epsilon (resid j) with
    | error e =>
      rw [chooseBracket_error_eq epsilon (resid j) e hj]
    | ok v =>
      have hij : i ≠ j := by
        intro h
        subst h
        exact hbad v hj
      have hmem' : i ∈ rest := by
        cases hmem with
        | head => exact absurd rfl hij
        | tail _ h' => exact h'
      rw [ih hmem' hbad]

/-- C8 amended: when the residual of some swept section changes sign in
none of the three configured intervals, the failure is raised (by
brentq, as scipy's generic ValueError) and propagates uncaught through
the sweep driver, which therefore returns no result at all rather than
silently zero-filling the section; the raised error, however, carries
neither the section index nor the attempted interval. -/
theorem rootfind_failure_surfaces (epsilon : ℝ) (resid : ℕ → ℝ → ℝ)
    (sections : List ℕ) (i : ℕ) (hmem : i ∈ sections)
    (h₁ : ¬ resid i epsilon * resid i (Real.pi / 2) < 0)
    (h₂ : ¬ resid i (-epsilon) * resid i (-(Real.pi / 4)) < 0)
    (h₃ : 0 < resid i (Real.pi / 2) * resid i (Real.pi - epsilon)) :
    sweepSections (fun j => chooseBracket epsilon (resid j)) sections
      = Except.error scipyNoSignChange
    ∧ scipyNoSignChange.sectionIndex = none
    ∧ scipyNoSignChange.interval = none := by
  have herr : chooseBracket epsilon (resid i) = Except.error scipyNoSignChange := by
    rw [chooseBracket, if_neg h₁, if_neg h₂, if_pos h₃]
  refine ⟨?_, rfl, rfl⟩
  exact sweepSections_error_of_mem epsilon resid i sections hmem
    (fun e he => by rw [herr] at he; cases he)

/-- Witness for the amended C8: a residual constantly one on a
one-section sweep. -/
theorem rootfind_failure_surfaces_witness :
    (0 ∈ [0])
    ∧ (¬ ((fun (_ : ℕ) (_ : ℝ) => (1 : ℝ)) 0 1 * (fun (_ : ℕ) (_ : ℝ) => (1 : ℝ)) 0 (Real.pi / 2) < 0))
    ∧ sweepSections (fun j => chooseBracket 1 ((fun (_ : ℕ) (_ : ℝ) => (1 : ℝ)) j)) [0]
      = Except.error scipyNoSignChange :=
  ⟨by simp, by norm_num,
   (rootfind_failure_surfaces 1 (fun _ _ => 1) [0] 0 (by simp)
      (by norm_num) (by norm_num) (by norm_num)).1⟩

/-- C8 counterexample to the claim as stated: with a residual that
changes sign in none of the three intervals the code raises scipy's
generic ValueError, whose report carries no section index and no
attempted interval. -/
theorem rootfind_failure_counterexample :
    chooseBracket 1 (fun _ => 1) = Except.error scipyNoSignChange
    ∧ scipyNoSignChange.sectionIndex = none
    ∧ scipyNoSignChange.interval = none := by
  refine ⟨?_, rfl, rfl⟩
  rw [chooseBracket, if_neg (by norm_num), if_neg (by norm_num), if_pos (by norm_num)]

end Bemol
